import Mathlib

set_option linter.unnecessarySeqFocus false

/-!
# Verification of the document retrieval and fusion pipeline

Shallow embedding of the search/fusion subsystem:
`utils/types.py` (UnifiedDoc, SearchResults), `tools/searching/search_yandex.py`
(YandexSearch adapter and extraction engine) and
`tools/searching/search_tools.py` (search_documents fusion orchestrator).

Python strings are modelled as Lean `String`, Python floats as `ℚ`
(no claim depends on binary floating point), Python dicts as ordered
association lists, and exceptions as `Except`.
-/

namespace Pipeline

/-! ## Python string primitives

`str.lower`, `str.strip` and UTF-8 encoding, as used by
`UnifiedDoc.compute_hash` (`(title + "|" + url).lower()` encoded as UTF-8
and fed to `hashlib.md5`) and by the empty-query check of
`search_documents`.  Lowercasing is modelled on the character ranges that
occur in this repository (ASCII and Cyrillic). -/

/-- Python `str.lower` on one character: ASCII `A`–`Z`, Cyrillic `А`–`Я` and `Ё`. -/
def pyLowerChar (c : Char) : Char :=
  let n := c.toNat
  if 65 ≤ n ∧ n ≤ 90 then Char.ofNat (n + 32)
  else if 0x410 ≤ n ∧ n ≤ 0x42F then Char.ofNat (n + 32)
  else if n = 0x401 then Char.ofNat 0x451
  else c

/-- Python `str.lower`. -/
def pyLower (s : String) : String := String.mk (s.toList.map pyLowerChar)

/-- Characters `str.strip()` removes (Python whitespace). -/
def isPySpace (c : Char) : Bool :=
  c = ' ' ∨ c = '\t' ∨ c = '\n' ∨ c = '\r' ∨ c = '\x0b' ∨ c = '\x0c'

/-- Python `str.strip()`. -/
def pyStrip (s : String) : String :=
  String.mk (((s.toList.dropWhile isPySpace).reverse.dropWhile isPySpace).reverse)

/-- UTF-8 encoding of one code point (`str.encode("utf-8")`). -/
def utf8Char (c : Char) : List Nat :=
  let n := c.toNat
  if n < 0x80 then [n]
  else if n < 0x800 then [0xC0 ||| (n >>> 6), 0x80 ||| (n &&& 0x3F)]
  else if n < 0x10000 then
    [0xE0 ||| (n >>> 12), 0x80 ||| ((n >>> 6) &&& 0x3F), 0x80 ||| (n &&& 0x3F)]
  else
    [0xF0 ||| (n >>> 18), 0x80 ||| ((n >>> 12) &&& 0x3F),
     0x80 ||| ((n >>> 6) &&& 0x3F), 0x80 ||| (n &&& 0x3F)]

/-- UTF-8 encoding of a string as a byte list. -/
def utf8Bytes (s : String) : List Nat := s.toList.flatMap utf8Char

/-! ## MD5 (`hashlib.md5(...).hexdigest()`)

Standard MD5 over a byte list; 32-bit words are `Nat` reduced mod `2^32`. -/

/-- The 64 MD5 round constants `K[i] = floor(2^32 * |sin(i+1)|)`. -/
def md5K : List Nat :=
  [0xd76aa478, 0xe8c7b756, 0x242070db, 0xc1bdceee,
   0xf57c0faf, 0x4787c62a, 0xa8304613, 0xfd469501,
   0x698098d8, 0x8b44f7af, 0xffff5bb1, 0x895cd7be,
   0x6b901122, 0xfd987193, 0xa679438e, 0x49b40821,
   0xf61e2562, 0xc040b340, 0x265e5a51, 0xe9b6c7aa,
   0xd62f105d, 0x02441453, 0xd8a1e681, 0xe7d3fbc8,
   0x21e1cde6, 0xc33707d6, 0xf4d50d87, 0x455a14ed,
   0xa9e3e905, 0xfcefa3f8, 0x676f02d9, 0x8d2a4c8a,
   0xfffa3942, 0x8771f681, 0x6d9d6122, 0xfde5380c,
   0xa4beea44, 0x4bdecfa9, 0xf6bb4b60, 0xbebfbc70,
   0x289b7ec6, 0xeaa127fa, 0xd4ef3085, 0x04881d05,
   0xd9d4d039, 0xe6db99e5, 0x1fa27cf8, 0xc4ac5665,
   0xf4292244, 0x432aff97, 0xab9423a7, 0xfc93a039,
   0x655b59c3, 0x8f0ccc92, 0xffeff47d, 0x85845dd1,
   0x6fa87e4f, 0xfe2ce6e0, 0xa3014314, 0x4e0811a1,
   0xf7537e82, 0xbd3af235, 0x2ad7d2bb, 0xeb86d391]

/-- The 64 MD5 per-round left-rotation amounts. -/
def md5S : List Nat :=
  [7, 12, 17, 22, 7, 12, 17, 22, 7, 12, 17, 22, 7, 12, 17, 22,
   5,  9, 14, 20, 5,  9, 14, 20, 5,  9, 14, 20, 5,  9, 14, 20,
   4, 11, 16, 23, 4, 11, 16, 23, 4, 11, 16, 23, 4, 11, 16, 23,
   6, 10, 15, 21, 6, 10, 15, 21, 6, 10, 15, 21, 6, 10, 15, 21]

def w32 (n : Nat) : Nat := n % 4294967296

def md5Not (x : Nat) : Nat := 4294967295 ^^^ x

def rotl32 (x c : Nat) : Nat := w32 ((x <<< c) ||| (x >>> (32 - c)))

/-- MD5 padding: append `0x80`, zero-pad to 56 mod 64, append the bit
length as 8 little-endian bytes. -/
def md5Pad (msg : List Nat) : List Nat :=
  let len := msg.length
  let padLen := (55 + 64 - len % 64) % 64 + 1
  let bitLen := len * 8
  msg ++ (0x80 :: List.replicate (padLen - 1) 0) ++
    (List.range 8).map (fun i => (bitLen >>> (8 * i)) % 256)

/-- Read a 32-bit little-endian word at byte offset `off`. -/
def leWord (chunk : List Nat) (off : Nat) : Nat :=
  chunk.getD off 0 ||| (chunk.getD (off + 1) 0 <<< 8) |||
  (chunk.getD (off + 2) 0 <<< 16) ||| (chunk.getD (off + 3) 0 <<< 24)

/-- One MD5 round `i` on state `(a, b, c, d)` with message chunk `chunk`. -/
def md5Round (chunk : List Nat) (i : Nat) :
    Nat × Nat × Nat × Nat → Nat × Nat × Nat × Nat
  | (a, b, c, d) =>
    let (f, g) :=
      if i < 16 then ((b &&& c) ||| (md5Not b &&& d), i)
      else if i < 32 then ((d &&& b) ||| (md5Not d &&& c), (5 * i + 1) % 16)
      else if i < 48 then (b ^^^ c ^^^ d, (3 * i + 5) % 16)
      else (c ^^^ (b ||| md5Not d), (7 * i) % 16)
    let f := w32 (f + a + md5K.getD i 0 + leWord chunk (4 * g))
    (d, w32 (b + rotl32 f (md5S.getD i 0)), b, c)

/-- Process one 64-byte chunk, updating the running state. -/
def md5Chunk (st : Nat × Nat × Nat × Nat) (chunk : List Nat) :
    Nat × Nat × Nat × Nat :=
  let (a0, b0, c0, d0) := st
  let (a, b, c, d) := (List.range 64).foldl (fun s i => md5Round chunk i s) st
  (w32 (a0 + a), w32 (b0 + b), w32 (c0 + c), w32 (d0 + d))

/-- Split a byte list into 64-byte chunks (structural recursion on a fuel
bound; `fuel = l.length` always suffices since each step consumes 64 bytes
of a non-empty list). -/
def chunksGo : Nat → List Nat → List (List Nat)
  | _, [] => []
  | 0, _ => []
  | fuel + 1, l => l.take 64 :: chunksGo fuel (l.drop 64)

/-- Split a byte list into 64-byte chunks. -/
def chunks64 (l : List Nat) : List (List Nat) := chunksGo l.length l

def hexDigit (n : Nat) : Char :=
  if n < 10 then Char.ofNat (48 + n) else Char.ofNat (87 + n)

/-- Little-endian hex rendering of a 32-bit word (4 bytes, low byte first). -/
def hexWordLE (x : Nat) : List Char :=
  (List.range 4).flatMap fun i =>
    let byte := (x >>> (8 * i)) % 256
    [hexDigit (byte / 16), hexDigit (byte % 16)]

/-- Model of `hashlib.md5(bytes).hexdigest()`. -/
def md5Bytes (msg : List Nat) : String :=
  let init : Nat × Nat × Nat × Nat :=
    (0x67452301, 0xefcdab89, 0x98badcfe, 0x10325476)
  let (a, b, c, d) := (chunks64 (md5Pad msg)).foldl md5Chunk init
  String.mk (hexWordLE a ++ hexWordLE b ++ hexWordLE c ++ hexWordLE d)

/-- Model of `hashlib.md5(s.encode("utf-8")).hexdigest()`. -/
def md5Hex (s : String) : String := md5Bytes (utf8Bytes s)

/-! ## Unified document model (`utils/types.py`) -/

/-- Value of the `source` field (`DocSource = Literal["yandex", "internal"]`). -/
inductive DocSource where
  | yandex
  | internal
deriving DecidableEq, Repr

/-- Value of the `doc_type` field (`DocType` literal in `utils/types.py`). -/
inductive DocType where
  | law
  | gov_letter
  | court
  | article
  | faq
  | news
  | forum
  | internal
deriving DecidableEq, Repr

/-- Model of `LawRef` (`utils/types.py`); the unused `span` field is kept. -/
structure LawRef where
  code : String
  article : Option String := none
  span : Option String := none
deriving DecidableEq, Repr

/-- Model of a validated `UnifiedDoc` (`utils/types.py`).  `url` is the
serialized URL string (`str(doc.url)`); pydantic's URL normalization is not
modelled, the adapters of this repository pass already-parsed URLs.
Floats are modelled as `ℚ`. -/
structure UnifiedDoc where
  title : String
  snippet : Option String := none
  content : Option String := none
  url : String
  source : DocSource
  doc_type : DocType := .article
  score_raw : ℚ := 0
  score_rank : ℚ := 0
  law_refs : List LawRef := []
  hash : String := ""
deriving DecidableEq, Repr

/-- Keyword arguments of a `UnifiedDoc(...)` construction, before
validation. -/
structure RawDoc where
  title : String
  snippet : Option String := none
  content : Option String := none
  url : String
  source : DocSource
  doc_type : DocType := .article
  score_raw : ℚ := 0
  score_rank : ℚ := 0
  law_refs : List LawRef := []
  hash : String := ""
deriving DecidableEq, Repr

/-- The hash of `UnifiedDoc.compute_hash`:
`hashlib.md5(((title + "|" + url).lower()).encode("utf-8")).hexdigest()`. -/
def computeHash (title url : String) : String :=
  md5Hex (pyLower (title ++ "|" ++ url))

/-- Model of pydantic's `HttpUrl` validation: scheme `http`/`https` and a
non-empty host. -/
def isValidHttpUrl (url : String) : Bool :=
  let cs := url.toList
  let http := "http://".toList
  let https := "https://".toList
  (http.isPrefixOf cs || https.isPrefixOf cs) &&
  (let rest := if http.isPrefixOf cs then cs.drop 7 else cs.drop 8
   let host := rest.takeWhile fun c =>
     !(c == '/') && !(c == ':') && !(c == '?') && !(c == '#')
   !host.isEmpty)

/-- Model of constructing `UnifiedDoc(**r)`: the `mode="before"` model
validator `compute_hash` runs first (a truthy pre-supplied `hash` is kept
unchanged, otherwise the hash of lowercased `title + "|" + url` is
stored), then field validation (`title` has `min_length=2`; `url` must be
a valid `HttpUrl`).  A `ValidationError` is modelled as `Except.error`. -/
def mkUnifiedDoc (r : RawDoc) : Except String UnifiedDoc :=
  if r.title.length < 2 then
    .error "ValidationError: title: String should have at least 2 characters"
  else if ¬ isValidHttpUrl r.url then
    .error "ValidationError: url: Input should be a valid URL"
  else
    .ok { title := r.title, snippet := r.snippet, content := r.content,
          url := r.url, source := r.source, doc_type := r.doc_type,
          score_raw := r.score_raw, score_rank := r.score_rank,
          law_refs := r.law_refs,
          hash := if r.hash ≠ "" then r.hash
                  else computeHash r.title r.url }

/-- Model of `SearchResults` (`utils/types.py`). -/
structure SearchResults where
  docs : List UnifiedDoc := []
  meta : List (String × String) := []
deriving DecidableEq, Repr

/-! ## External adapter and extraction engine (`tools/searching/search_yandex.py`) -/

/-- The `{title, content}` dictionary returned by
`YandexSearch._scrape_page` (both keys are always present). -/
structure PageData where
  title : String
  content : String
deriving DecidableEq, Repr

/-- Outcome of the HTTP GET inside `_scrape_page`: a response with a
status code and body, a timeout (`asyncio.TimeoutError`), an
`aiohttp.ClientError`, or any other exception. -/
inductive FetchOutcome where
  | response (status : Nat) (html : String)
  | timeout
  | clientErr (msg : String)
  | otherErr (msg : String)
deriving DecidableEq, Repr

/-- Model of `YandexSearch._scrape_page` (lines 106–152).  The
title/content extraction chain on a 200 response (BeautifulSoup title
lookup, trafilatura with BeautifulSoup fallback, lines 122–152) is
abstracted as the parameter `extract`; that branch also returns a
`PageData` on every path, so the whole function is total: no exception
escapes it. -/
def scrapePage (extract : String → PageData) (url : String) :
    FetchOutcome → PageData
  | .response status html =>
      if status ≠ 200 then
        { title := "Ошибка", content := "HTTP статус: " ++ toString status }
      else extract html
  | .timeout =>
      { title := "Ошибка", content := "Тайм-аут при загрузке " ++ url }
  | .clientErr msg =>
      { title := "Ошибка",
        content := "Ошибка aiohttp при загрузке " ++ url ++ ": " ++ msg }
  | .otherErr msg =>
      { title := "Ошибка",
        content := "Неожиданная ошибка при загрузке " ++ url ++ ": " ++ msg }

/-- A Python value inside a processed-item dictionary. -/
inductive PyVal where
  | str (s : String)
  | num (q : ℚ)
deriving DecidableEq, Repr

/-- An insertion-ordered Python dictionary with string keys. -/
abbrev PyDict := List (String × PyVal)

/-- Python `dict.get(k)` (first matching key). -/
def dictGet (d : PyDict) (k : String) : Option PyVal :=
  (d.find? fun kv => kv.1 = k).map (·.2)

/-- Python `dict.get(k)` when a string value is expected. -/
def dictGetStr (d : PyDict) (k : String) : Option String :=
  match dictGet d k with
  | some (.str s) => some s
  | _ => none

/-- The dictionary appended for one successfully scraped link
(`YandexSearch.search`, lines 210–216): exactly the keys `title`, `url`
and `content`. -/
def mkProcessedItem (link : String) (p : PageData) : PyDict :=
  [("title", .str p.title), ("url", .str link), ("content", .str p.content)]

/-- Model of the collection loop of `YandexSearch.search` (lines
205–216): `asyncio.gather(..., return_exceptions=True)` yields either a
`PageData` or an exception per link; an exception entry is logged and
skipped (`continue`), a success entry is appended as a dictionary. -/
def collectPages : List (String × Except String PageData) → List PyDict
  | [] => []
  | (_, .error _) :: rest => collectPages rest
  | (link, .ok p) :: rest => mkProcessedItem link p :: collectPages rest

/-- Model of `YandexSearch.search` after the provider returned `links`
and the per-link fetch tasks produced `pages` (aligned with the filtered
links, as in the source where both comprehensions filter falsy links).
The provider call itself and its outer `except` (which degrades to `[]`)
are upstream of this. -/
def searchProcessedItems (links : List String)
    (pages : List (Except String PageData)) : List PyDict :=
  collectPages ((links.filter fun l => l ≠ "").zip pages)

/-- Substring test on character lists (Python's `in` for strings). -/
def listContainsSub (needle : List Char) : List Char → Bool
  | [] => needle.isEmpty
  | c :: rest => needle.isPrefixOf (c :: rest) || listContainsSub needle rest

/-- Python's `needle in hay` for strings. -/
def strIn (needle hay : String) : Bool :=
  listContainsSub needle.toList hay.toList

/-- Model of `_infer_doc_type` (`search_yandex.py`, lines 50–62). -/
def inferDocType (url : String) : DocType :=
  if strIn "consultant.ru" url || strIn "garant.ru" url then .law
  else if strIn "nalog.gov.ru" url || strIn "minfin.gov.ru" url then .gov_letter
  else if strIn "sudact.ru" url then .court
  else if strIn "forum" url then .forum
  else if strIn "news" url then .news
  else .article

/-- One iteration of the loop in `YandexSearch.run` (lines 227–240):
builds a `UnifiedDoc` from one raw item dictionary.  The regulatory
citation scan `_extract_law_refs` is abstracted as the parameter
`extractLawRefs` (no claim depends on its output).  A missing `title` or
`url` key is a `KeyError`; `float(...)` applied to a numeric value is
modelled, string-to-float parsing is not (the `score` key never occurs
in this adapter's items). -/
def runDoc (extractLawRefs : PyDict → List LawRef) (r : PyDict) :
    Except String UnifiedDoc :=
  match dictGet r "title", dictGet r "url" with
  | some (.str title), some (.str url) =>
      mkUnifiedDoc
        { title := title
          snippet := dictGetStr r "snippet"
          content := dictGetStr r "content"
          url := url
          source := .yandex
          doc_type := inferDocType ((dictGetStr r "url").getD "")
          score_raw := match dictGet r "score" with
            | some (.num q) => q
            | _ => 0
          law_refs := extractLawRefs r
          hash := "" }
  | _, _ => .error "KeyError"

/-- The document-building loop of `YandexSearch.run`: documents are
appended in item order; an exception on any item aborts the loop and
propagates, as in the source. -/
def buildDocs (f : PyDict → Except String UnifiedDoc) :
    List PyDict → Except String (List UnifiedDoc)
  | [] => .ok []
  | r :: rest =>
      match f r with
      | .error e => .error e
      | .ok d =>
          match buildDocs f rest with
          | .error e => .error e
          | .ok ds => .ok (d :: ds)

/-- Model of `YandexSearch.run` (lines 224–241) applied to the raw items
returned by `search`. -/
def yandexRun (extractLawRefs : PyDict → List LawRef) (raw : List PyDict) :
    Except String SearchResults :=
  match buildDocs (runDoc extractLawRefs) raw with
  | .error e => .error e
  | .ok docs =>
      .ok { docs := docs,
            meta := [("provider", "yandex"), ("count", toString docs.length)] }

/-! ## Merge, dedup, score, rank (`tools/searching/search_tools.py`)

`search_documents` delegates deduplication and scoring to
`NormalizeMergeRerank` from `agents/jur_agent/nodes/normalize_merge`,
a module of this repository that is not under `src/`; those two methods
are modelled from the spec.  The merge, the stable descending sort, the
truncation and the output formatting are translated from
`search_tools.py` itself. -/

/-- Modelled from the spec: `NormalizeMergeRerank._dedup` (module
`agents/jur_agent/nodes/normalize_merge` is missing from `src/`).
Spec §4.5: "group by `content_id`; keep exactly one representative per
group (first occurrence in merge order is kept — stable,
deterministic)". -/
def dedupGo (seen : List String) : List UnifiedDoc → List UnifiedDoc
  | [] => []
  | d :: rest =>
      if d.hash ∈ seen then dedupGo seen rest
      else d :: dedupGo (d.hash :: seen) rest

/-- Modelled from the spec: entry point of `NormalizeMergeRerank._dedup`. -/
def dedupDocs (docs : List UnifiedDoc) : List UnifiedDoc := dedupGo [] docs

/-- Modelled from the spec: the deterministic type-weight table of
`NormalizeMergeRerank._score`.  Spec §4.5 fixes only the shape
(authoritative types above `forum`/`news`); the concrete weights are a
tunable policy. -/
def typeWeight : DocType → ℚ
  | .law => 1
  | .gov_letter => 9/10
  | .court => 8/10
  | .internal => 6/10
  | .article => 5/10
  | .faq => 4/10
  | .news => 2/10
  | .forum => 1/10

/-- Modelled from the spec: `NormalizeMergeRerank._score`
(spec §4.5: a pure function of `score_raw`, `doc_type` and presence of
`law_refs`, writing `score_rank` and performing no I/O). -/
def scoreDoc (d : UnifiedDoc) : UnifiedDoc :=
  { d with score_rank :=
      d.score_raw + typeWeight d.doc_type +
        (if d.law_refs = [] then 0 else 1/5) }

/-- Outcome of each backend's `run` call as observed by the `safe_*`
wrappers of `search_documents`: a result or an exception. -/
structure BackendOutcome where
  internalRes : Except String SearchResults
  yandexRes : Except String SearchResults
deriving Repr

/-- Model of `safe_yandex_search` / `safe_internal_search` (lines 73–89):
an exception is caught and logged, leaving the default empty
`SearchResults()`. -/
def safeRun : Except String SearchResults → SearchResults
  | .ok s => s
  | .error _ => {}

/-- The `source` coercion of `search_documents` (lines 63–64). -/
def coerceSource (s : String) : String :=
  if s = "internal" ∨ s = "yandex" ∨ s = "both" then s else "both"

/-- The `limit` clamping of `search_documents` (lines 58–61). -/
def clampLimit (l : Int) : Int :=
  if l < 1 then 1 else if l > 10 then 10 else l

/-- The merge step of `search_documents` (lines 97–101): internal
results first, then yandex results, each contributing only when its
source is selected (an unselected or failed backend leaves the default
empty result). -/
def mergedDocs (source : String) (bk : BackendOutcome) : List UnifiedDoc :=
  (if source = "internal" ∨ source = "both"
   then (safeRun bk.internalRes).docs else []) ++
  (if source = "yandex" ∨ source = "both"
   then (safeRun bk.yandexRes).docs else [])

/-- Stable descending insertion step: the new element goes after every
element whose key is at least its own, so ties keep merge order. -/
def insertDesc (d : UnifiedDoc) : List UnifiedDoc → List UnifiedDoc
  | [] => [d]
  | e :: rest =>
      if d.score_rank ≤ e.score_rank then e :: insertDesc d rest
      else d :: e :: rest

/-- Model of `sorted(scored, key=lambda d: d.score_rank, reverse=True)`
(line 111).  Python's sort is stable, also with `reverse=True`; a stable
descending sort is uniquely determined, here realised as insertion
sort. -/
def sortDesc (l : List UnifiedDoc) : List UnifiedDoc :=
  l.foldl (fun acc d => insertDesc d acc) []

/-- The dedup → score → rank → truncate pipeline of `search_documents`
(lines 109–111) on the merged documents. -/
def rankedDocs (source : String) (limit : Int) (bk : BackendOutcome) :
    List UnifiedDoc :=
  (sortDesc ((dedupDocs (mergedDocs source bk)).map scoreDoc)).take
    (clampLimit limit).toNat

/-- Python truthiness of an optional string (`None` and `""` are falsy). -/
def pyTruthyOptStr : Option String → Bool
  | none => false
  | some s => s ≠ ""

/-- The snippet expression of line 121,
`doc.snippet or doc.content[:200] if doc.content else ""`, with Python's
precedence: `(doc.snippet or doc.content[:200]) if doc.content else ""`. -/
def formatSnippet (d : UnifiedDoc) : String :=
  if pyTruthyOptStr d.content then
    match d.snippet with
    | some s => if s = "" then (d.content.getD "").take 200 else s
    | none => (d.content.getD "").take 200
  else ""

/-- Python `round(x, 2)` on the rank score (ties at exact halves follow
`ℚ` rounding rather than binary-float banker's rounding; no claim
depends on it). -/
def pyRound2 (q : ℚ) : ℚ := (round (q * 100) : ℤ) / 100

/-- One formatted output document (lines 117–126). -/
structure FormattedDoc where
  title : String
  url : String
  snippet : String
  source : DocSource
  doc_type : DocType
  score : ℚ
deriving DecidableEq, Repr

/-- The formatting step of `search_documents` (lines 115–126). -/
def formatDoc (d : UnifiedDoc) : FormattedDoc :=
  { title := d.title, url := d.url, snippet := formatSnippet d,
    source := d.source, doc_type := d.doc_type,
    score := pyRound2 d.score_rank }

/-- A value of the dictionary returned by `search_documents`. -/
inductive RVal where
  | fdocs (l : List FormattedDoc)
  | int (n : Int)
  | str (s : String)
  | udocs (l : List UnifiedDoc)
deriving DecidableEq, Repr

/-- Model of `search_documents` (lines 16–135) given the backend
outcomes: the returned Python dictionary as an insertion-ordered
association list.  The blank-query branch (lines 46–56) returns its
seven-key dictionary before backends are consulted; the normal path
(lines 128–133) returns four keys. -/
def searchDocuments (query source : String) (limit : Int)
    (bk : BackendOutcome) : List (String × RVal) :=
  if pyStrip query = "" then
    [("documents", .fdocs []), ("total_found", .int 0),
     ("query", .str query), ("source", .str source),
     ("internal_docs", .udocs []), ("yandex_docs", .udocs []),
     ("merged_docs", .udocs [])]
  else
    let src := coerceSource source
    let ranked := rankedDocs src limit bk
    [("documents", .fdocs (ranked.map formatDoc)),
     ("total_found", .int ranked.length),
     ("query", .str query), ("source", .str src)]

/-- Lookup in the returned dictionary. -/
def resGet (res : List (String × RVal)) (k : String) : Option RVal :=
  (res.find? fun kv => kv.1 = k).map (·.2)

/-- The key list (shape) of the returned dictionary. -/
def resKeys (res : List (String × RVal)) : List String := res.map (·.1)

/-! ## Concrete sample values used to instantiate the theorems -/

/-- A raw construction with no pre-supplied hash. -/
def sampleRaw : RawDoc :=
  { title := "ab", url := "http://example.com/", source := .yandex }

/-- The document `mkUnifiedDoc sampleRaw` produces. -/
def sampleDoc : UnifiedDoc :=
  { title := "ab", url := "http://example.com/", source := .yandex,
    hash := computeHash "ab" "http://example.com/" }

/-- The document the external adapter builds from one scraped page. -/
def sampleYadoc : UnifiedDoc :=
  { title := "Title", snippet := none, content := some "Body",
    url := "http://a.com/", source := .yandex,
    doc_type := inferDocType "http://a.com/", score_raw := 0,
    score_rank := 0, law_refs := [],
    hash := computeHash "Title" "http://a.com/" }

/-- The adapter result wrapping `sampleYadoc`. -/
def sampleRes : SearchResults :=
  { docs := [sampleYadoc],
    meta := [("provider", "yandex"), ("count", "1")] }

/-- An internal-search document with a distinct hash. -/
def sampleIntDoc : UnifiedDoc :=
  { title := "Internal doc", url := "http://int.example/",
    source := .internal, doc_type := .internal, hash := "h-int" }

/-- A pair of backend outcomes with one document each. -/
def sampleBk : BackendOutcome :=
  ⟨.ok { docs := [sampleIntDoc] }, .ok { docs := [sampleYadoc] }⟩

/-! ## Helper lemmas: the stable descending sort -/

/-- Descending order on rank scores. -/
def rankGE (a b : UnifiedDoc) : Prop := b.score_rank ≤ a.score_rank

theorem perm_insertDesc (d : UnifiedDoc) (l : List UnifiedDoc) :
    List.Perm (insertDesc d l) (d :: l) := by
  induction l with
  | nil => simp [insertDesc]
  | cons e rest ih =>
      simp only [insertDesc]
      split
      · exact ((ih.cons e).trans (List.Perm.swap d e rest))
      · exact List.Perm.refl _

theorem mem_insertDesc {x d : UnifiedDoc} {l : List UnifiedDoc}
    (h : x ∈ insertDesc d l) : x = d ∨ x ∈ l := by
  have := (perm_insertDesc d l).mem_iff.mp h
  simpa using this

theorem sorted_insertDesc (d : UnifiedDoc) {l : List UnifiedDoc}
    (hl : l.Sorted rankGE) : (insertDesc d l).Sorted rankGE := by
  induction l with
  | nil => simp [insertDesc, List.Sorted]
  | cons e rest ih =>
      rw [List.sorted_cons] at hl
      obtain ⟨he, hrest⟩ := hl
      simp only [insertDesc]
      split
      · rename_i hle
        rw [List.sorted_cons]
        refine ⟨?_, ih hrest⟩
        intro b hb
        rcases mem_insertDesc hb with rfl | hb
        · exact hle
        · exact he b hb
      · rename_i hgt
        rw [List.sorted_cons]
        constructor
        · intro b hb
          rcases List.mem_cons.mp hb with rfl | hb
          · exact le_of_not_le hgt
          · exact le_trans (he b hb) (le_of_not_le hgt)
        · exact List.sorted_cons.mpr ⟨he, hrest⟩

theorem sorted_foldl_insertDesc (l : List UnifiedDoc) :
    ∀ acc : List UnifiedDoc, acc.Sorted rankGE →
      (l.foldl (fun acc d => insertDesc d acc) acc).Sorted rankGE := by
  induction l with
  | nil => intro acc h; simpa using h
  | cons d rest ih =>
      intro acc h
      exact ih _ (sorted_insertDesc d h)

theorem sorted_sortDesc (l : List UnifiedDoc) : (sortDesc l).Sorted rankGE :=
  sorted_foldl_insertDesc l [] (by simp [List.Sorted])

theorem perm_foldl_insertDesc (l : List UnifiedDoc) :
    ∀ acc : List UnifiedDoc,
      List.Perm (l.foldl (fun acc d => insertDesc d acc) acc) (acc ++ l) := by
  induction l with
  | nil => intro acc; simp
  | cons d rest ih =>
      intro acc
      refine (ih (insertDesc d acc)).trans ?_
      refine ((perm_insertDesc d acc).append_right rest).trans ?_
      exact (List.perm_middle).symm

theorem perm_sortDesc (l : List UnifiedDoc) : List.Perm (sortDesc l) l := by
  simpa using perm_foldl_insertDesc l []

theorem filter_insertDesc (d : UnifiedDoc) (q : ℚ) {l : List UnifiedDoc}
    (hl : l.Sorted rankGE) :
    (insertDesc d l).filter (fun e => e.score_rank = q) =
      if d.score_rank = q
      then l.filter (fun e => e.score_rank = q) ++ [d]
      else l.filter (fun e => e.score_rank = q) := by
  induction l with
  | nil =>
      simp only [insertDesc, List.filter]
      split <;> rename_i hd
      · simp_all
      · simp_all
  | cons e rest ih =>
      rw [List.sorted_cons] at hl
      obtain ⟨he, hrest⟩ := hl
      simp only [insertDesc]
      split
      · rename_i hle
        have ihr := ih hrest
        by_cases hdq : d.score_rank = q <;> by_cases heq : e.score_rank = q <;>
          simp [List.filter_cons, hdq, heq, ihr]
      · rename_i hgt
        have hlt : e.score_rank < d.score_rank := lt_of_not_le hgt
        by_cases hdq : d.score_rank = q
        · have hnil : (e :: rest).filter (fun x => x.score_rank = q) = [] := by
            rw [List.filter_eq_nil_iff]
            intro a ha
            have haq : a.score_rank < q := by
              rcases List.mem_cons.mp ha with rfl | ha
              · exact hdq ▸ hlt
              · exact lt_of_le_of_lt (he a ha) (hdq ▸ hlt)
            simp only [decide_eq_true_eq]
            exact ne_of_lt haq
          simp [List.filter_cons, hdq, hnil]
        · simp [List.filter_cons, hdq]

theorem filter_foldl_insertDesc (q : ℚ) (l : List UnifiedDoc) :
    ∀ acc : List UnifiedDoc, acc.Sorted rankGE →
      (l.foldl (fun acc d => insertDesc d acc) acc).filter
          (fun e => e.score_rank = q) =
        acc.filter (fun e => e.score_rank = q) ++
          l.filter (fun e => e.score_rank = q) := by
  induction l with
  | nil => intro acc _; simp
  | cons d rest ih =>
      intro acc hacc
      have step := ih (insertDesc d acc) (sorted_insertDesc d hacc)
      have hins := filter_insertDesc d q hacc
      rw [List.foldl_cons, step, hins, List.filter_cons]
      by_cases hdq : d.score_rank = q <;> simp [hdq]

/-- Stability of the modelled sort: for each rank value, the elements
carrying it appear in the sorted output in their original order. -/
theorem filter_sortDesc (q : ℚ) (l : List UnifiedDoc) :
    (sortDesc l).filter (fun e => e.score_rank = q) =
      l.filter (fun e => e.score_rank = q) := by
  simpa using filter_foldl_insertDesc q l [] (by simp [List.Sorted])

/-! ## Helper lemmas: deduplication -/

theorem mem_dedupGo {d : UnifiedDoc} :
    ∀ {l : List UnifiedDoc} {seen : List String},
      d ∈ dedupGo seen l → d ∈ l ∧ d.hash ∉ seen := by
  intro l
  induction l with
  | nil => intro seen h; simp [dedupGo] at h
  | cons e rest ih =>
      intro seen h
      simp only [dedupGo] at h
      split at h
      · have := ih h
        exact ⟨List.mem_cons_of_mem e this.1, this.2⟩
      · rename_i hnot
        rcases List.mem_cons.mp h with rfl | h
        · exact ⟨List.mem_cons_self _ _, hnot⟩
        · have := ih h
          refine ⟨List.mem_cons_of_mem e this.1, ?_⟩
          intro hmem
          exact this.2 (List.mem_cons_of_mem _ hmem)

theorem pairwise_dedupGo :
    ∀ (l : List UnifiedDoc) (seen : List String),
      (dedupGo seen l).Pairwise (fun a b => a.hash ≠ b.hash) := by
  intro l
  induction l with
  | nil => intro seen; simp [dedupGo]
  | cons e rest ih =>
      intro seen
      simp only [dedupGo]
      split
      · exact ih seen
      · refine List.Pairwise.cons ?_ (ih (e.hash :: seen))
        intro b hb
        have := (mem_dedupGo hb).2
        simp only [List.mem_cons, not_or] at this
        exact fun h => this.1 h.symm

theorem sublist_dedupGo :
    ∀ (l : List UnifiedDoc) (seen : List String),
      (dedupGo seen l).Sublist l := by
  intro l
  induction l with
  | nil => intro seen; simp [dedupGo]
  | cons e rest ih =>
      intro seen
      simp only [dedupGo]
      split
      · exact (ih seen).cons e
      · exact (ih (e.hash :: seen)).cons₂ e

theorem find?_dedupGo (h : String) :
    ∀ (l : List UnifiedDoc) (seen : List String), h ∉ seen →
      (dedupGo seen l).find? (fun e => e.hash = h) =
        l.find? (fun e => e.hash = h) := by
  intro l
  induction l with
  | nil => intro seen _; rfl
  | cons d rest ih =>
      intro seen hns
      simp only [dedupGo]
      split
      · rename_i hmem
        have hdh : ¬ d.hash = h := fun he => hns (he ▸ hmem)
        rw [ih seen hns, List.find?_cons_of_neg]
        simp [hdh]
      · rename_i hnot
        by_cases hdq : d.hash = h
        · rw [List.find?_cons_of_pos, List.find?_cons_of_pos]
          all_goals simp [hdq]
        · rw [List.find?_cons_of_neg, List.find?_cons_of_neg]
          · refine ih (d.hash :: seen) ?_
            simp only [List.mem_cons, not_or]
            exact ⟨fun he => hdq he.symm, hns⟩
          · simp [hdq]
          · simp [hdq]

theorem find?_eq_of_pairwise_mem {d : UnifiedDoc} :
    ∀ {l : List UnifiedDoc},
      l.Pairwise (fun a b => a.hash ≠ b.hash) → d ∈ l →
        l.find? (fun e => e.hash = d.hash) = some d := by
  intro l
  induction l with
  | nil => intro _ h; simp at h
  | cons e rest ih =>
      intro hp hd
      rcases List.mem_cons.mp hd with rfl | hd
      · rw [List.find?_cons_of_pos] <;> simp
      · have hne : e.hash ≠ d.hash :=
          (List.pairwise_cons.mp hp).1 d hd
        rw [List.find?_cons_of_neg]
        · exact ih (List.pairwise_cons.mp hp).2 hd
        · simp [hne]

/-! ## Helper lemmas: the returned dictionary -/

theorem resGet_documents (query source : String) (limit : Int)
    (bk : BackendOutcome) :
    resGet (searchDocuments query source limit bk) "documents" =
      some (.fdocs (if pyStrip query = "" then []
        else (rankedDocs (coerceSource source) limit bk).map formatDoc)) := by
  by_cases hq : pyStrip query = "" <;> simp [searchDocuments, hq, resGet]

theorem resGet_total_found (query source : String) (limit : Int)
    (bk : BackendOutcome) :
    resGet (searchDocuments query source limit bk) "total_found" =
      some (.int (if pyStrip query = "" then 0
        else (rankedDocs (coerceSource source) limit bk).length)) := by
  by_cases hq : pyStrip query = "" <;> simp [searchDocuments, hq, resGet]

/-! ## Claims -/

set_option maxRecDepth 8000 in
/-- C3 (code-bug evidence): the snippet expression of `search_tools.py`
line 121, `doc.snippet or doc.content[:200] if doc.content else ""`,
parses as `(doc.snippet or doc.content[:200]) if doc.content else ""`,
so a document with a backend-supplied snippet but falsy (`None` or
empty) content reports `""`, not its snippet; with truthy content the
fallback behaves as specified. -/
theorem snippet_precedence_bug :
    formatSnippet { title := "Doc", url := "http://a.com/",
                    source := .internal, snippet := some "S",
                    content := none } = "" ∧
    formatSnippet { title := "Doc", url := "http://a.com/",
                    source := .internal, snippet := some "S",
                    content := some "" } = "" ∧
    formatSnippet { title := "Doc", url := "http://a.com/",
                    source := .internal, snippet := some "S",
                    content := some "body" } = "S" ∧
    formatSnippet { title := "Doc", url := "http://a.com/",
                    source := .internal, snippet := none,
                    content := some "body" } = "body" := by
  refine ⟨rfl, rfl, rfl, rfl⟩

set_option maxRecDepth 8000 in
/-- C4 counterexample: the dictionary returned for a whitespace-only
query has seven keys, the one returned for a non-empty query has four,
so the two shapes differ. -/
theorem emptyQuery_shape_differs :
    resKeys (searchDocuments " " "both" 5 ⟨.ok {}, .ok {}⟩) ≠
      resKeys (searchDocuments "q" "both" 5 ⟨.ok {}, .ok {}⟩) := by
  decide

/-- C4 amended: a blank/whitespace-only query short-circuits to
`documents = []`, `total_found = 0` without consulting either backend
(the result is independent of the backend outcomes), but the returned
mapping carries three extra keys (`internal_docs`, `yandex_docs`,
`merged_docs`) that the non-empty-query result does not have. -/
theorem emptyQuery_shortCircuit (query source : String) (limit : Int)
    (bk bk' : BackendOutcome) (h : pyStrip query = "") :
    searchDocuments query source limit bk =
      searchDocuments query source limit bk' ∧
    resGet (searchDocuments query source limit bk) "documents" =
      some (.fdocs []) ∧
    resGet (searchDocuments query source limit bk) "total_found" =
      some (.int 0) ∧
    resKeys (searchDocuments query source limit bk) =
      ["documents", "total_found", "query", "source",
       "internal_docs", "yandex_docs", "merged_docs"] := by
  refine ⟨?_, ?_, ?_, ?_⟩ <;> simp [searchDocuments, h, resGet, resKeys]

/-- C4 witness: the short-circuit theorem instantiated at the
whitespace-only query of spec §8 and two different backend outcomes. -/
theorem emptyQuery_shortCircuit_witness :
    pyStrip "   " = "" ∧
    searchDocuments "   " "both" 5 ⟨.ok {}, .ok {}⟩ =
      searchDocuments "   " "both" 5 ⟨.error "down", .error "down"⟩ :=
  ⟨by decide,
   (emptyQuery_shortCircuit "   " "both" 5 ⟨.ok {}, .ok {}⟩
     ⟨.error "down", .error "down"⟩ (by decide)).1⟩

/-- C6: the requested `limit` is clamped into `[1, 10]` (below 1 → 1,
above 10 → 10, otherwise unchanged) and the returned documents list
never exceeds the clamped limit. -/
theorem limit_clamped (query source : String) (limit : Int)
    (bk : BackendOutcome) :
    1 ≤ clampLimit limit ∧ clampLimit limit ≤ 10 ∧
    (limit < 1 → clampLimit limit = 1) ∧
    (10 < limit → clampLimit limit = 10) ∧
    (1 ≤ limit → limit ≤ 10 → clampLimit limit = limit) ∧
    ∀ docs, resGet (searchDocuments query source limit bk) "documents" =
        some (.fdocs docs) → docs.length ≤ (clampLimit limit).toNat := by
  refine ⟨?_, ?_, ?_, ?_, ?_, ?_⟩
  · unfold clampLimit; split_ifs <;> omega
  · unfold clampLimit; split_ifs <;> omega
  · intro h; unfold clampLimit; split_ifs <;> omega
  · intro h; unfold clampLimit; split_ifs <;> omega
  · intro h1 h2; unfold clampLimit; split_ifs <;> omega
  · intro docs hdocs
    rw [resGet_documents] at hdocs
    split at hdocs
    · obtain rfl : docs = [] := by simpa using hdocs.symm
      simp
    · obtain rfl : docs =
          (rankedDocs (coerceSource source) limit bk).map formatDoc := by
        simpa using hdocs.symm
      rw [List.length_map]
      unfold rankedDocs
      exact le_trans (List.length_take_le _ _) (le_refl _)

/-- C6 witness: the clamping theorem instantiated at a concrete call. -/
theorem limit_clamped_witness :
    1 ≤ clampLimit 50 ∧ clampLimit 50 ≤ 10 :=
  ⟨(limit_clamped "q" "both" 50 ⟨.ok {}, .ok {}⟩).1,
   (limit_clamped "q" "both" 50 ⟨.ok {}, .ok {}⟩).2.1⟩

/-- C9 counterexample: the placeholder literals of `_scrape_page` are
Russian (`"Ошибка"`, `"HTTP статус: <code>"`,
`"Тайм-аут при загрузке <url>"`), not the English `"Error"` /
`"HTTP status:"` / `"Timeout fetching"` of the claim. -/
theorem scrape_error_literals_russian :
    (scrapePage (fun _ => ⟨"", ""⟩) "http://a.com/"
        (.response 404 "")).title ≠ "Error" ∧
    (scrapePage (fun _ => ⟨"", ""⟩) "http://a.com/" .timeout).content ≠
      "Timeout fetching http://a.com/" := by
  decide

/-- C9 amended: a non-200 HTTP response yields the placeholder document
`{title: "Ошибка", content: "HTTP статус: <code>"}` and a timeout yields
`{title: "Ошибка", content: "Тайм-аут при загрузке <url>"}`; the fetch
function is total (every failure mode returns a document), so no
exception propagates past it. -/
theorem scrape_error_placeholders (extract : String → PageData)
    (url html : String) (code : Nat) (h : code ≠ 200) :
    scrapePage extract url (.response code html) =
      { title := "Ошибка", content := "HTTP статус: " ++ toString code } ∧
    scrapePage extract url .timeout =
      { title := "Ошибка", content := "Тайм-аут при загрузке " ++ url } := by
  exact ⟨by simp [scrapePage, h], rfl⟩

/-- C9 witness: the placeholder theorem at a 404 response. -/
theorem scrape_error_placeholders_witness :
    (404 : Nat) ≠ 200 ∧
    scrapePage (fun _ => ⟨"", ""⟩) "http://a.com/" (.response 404 "") =
      { title := "Ошибка", content := "HTTP статус: 404" } :=
  ⟨by decide,
   (scrape_error_placeholders (fun _ => ⟨"", ""⟩) "http://a.com/" "" 404
     (by decide)).1⟩

/-- C2 counterexample: a link whose fetch task resolved to an exception
at the `asyncio.gather` collection point is dropped from the adapter's
output (`continue` in `YandexSearch.search`), not converted to a
placeholder document. -/
theorem failed_fetch_dropped :
    searchProcessedItems ["http://a.com/"] [.error "boom"] = [] ∧
    searchProcessedItems ["http://a.com/", "http://b.com/"]
        [.error "boom", .ok ⟨"T", "C"⟩] =
      [mkProcessedItem "http://b.com/" ⟨"T", "C"⟩] := by
  exact ⟨rfl, rfl⟩

/-- C2 amended: an exception observed at the collection point is logged
and its link's entry is dropped from the output; every task that
resolved to a page dictionary contributes its entry, unaffected by
failures of other tasks.  (Failures inside `_scrape_page` itself are
converted to placeholder documents before collection.) -/
theorem collect_drops_exceptions
    (lps : List (String × Except String PageData)) :
    collectPages lps = lps.filterMap (fun x =>
      match x.2 with
      | .error _ => none
      | .ok p => some (mkProcessedItem x.1 p)) ∧
    ∀ link p, (link, Except.ok p) ∈ lps →
      mkProcessedItem link p ∈ collectPages lps := by
  constructor
  · induction lps with
    | nil => rfl
    | cons x rest ih =>
        obtain ⟨l, e⟩ := x
        cases e <;> simp [collectPages, List.filterMap_cons, ih]
  · induction lps with
    | nil => intro link p hmem; simp at hmem
    | cons x rest ih =>
        intro link p hmem
        obtain ⟨l, e⟩ := x
        rcases List.mem_cons.mp hmem with heq | hmem'
        · cases heq
          simp [collectPages]
        · cases e with
          | error s => simpa [collectPages] using ih link p hmem'
          | ok pd =>
              simp only [collectPages, List.mem_cons]
              exact Or.inr (ih link p hmem')

/-- C2 witness: the collection theorem at a concrete batch with one
failed and one successful fetch. -/
theorem collect_drops_exceptions_witness :
    collectPages [("http://a.com/", Except.error "x"),
                  ("http://b.com/", Except.ok ⟨"T", "C"⟩)] =
      [mkProcessedItem "http://b.com/" ⟨"T", "C"⟩] ∧
    mkProcessedItem "http://b.com/" (⟨"T", "C"⟩ : PageData) ∈
      collectPages [("http://a.com/", Except.error "x"),
                    ("http://b.com/", Except.ok ⟨"T", "C"⟩)] :=
  ⟨((collect_drops_exceptions _).1).trans rfl,
   (collect_drops_exceptions _).2 "http://b.com/" ⟨"T", "C"⟩ (by simp)⟩

/-- C8 counterexample: constructing a `UnifiedDoc` with a well-formed
absolute URL and an empty title hard-fails with a `ValidationError`
(title has `min_length=2`); no `"Untitled"` placeholder is substituted
by the model. -/
theorem title_validation_hard_fails :
    isValidHttpUrl "http://example.com/" = true ∧
    mkUnifiedDoc { title := "", url := "http://example.com/",
                   source := .yandex } =
      .error "ValidationError: title: String should have at least 2 characters" := by
  exact ⟨by decide, by rfl⟩

/-- C8 amended: `UnifiedDoc` construction succeeds exactly when the
title is at least 2 characters long and the url is a well-formed
absolute URL; a too-short (in particular empty) title is a hard
`ValidationError` like a malformed URL, and no placeholder is
substituted at construction — the stored title is the given one.  (The
`"Без заголовка"` placeholder is substituted upstream by the scraper's
title extractor, so adapter-built documents never carry an empty
title.) -/
theorem unifiedDoc_validation (r : RawDoc) :
    ((∃ d, mkUnifiedDoc r = .ok d) ↔
      2 ≤ r.title.length ∧ isValidHttpUrl r.url = true) ∧
    ∀ d, mkUnifiedDoc r = .ok d → d.title = r.title := by
  constructor
  · constructor
    · rintro ⟨d, hd⟩
      unfold mkUnifiedDoc at hd
      split_ifs at hd with h1 h2 h3
      · exact ⟨by omega, by simpa using h2⟩
      · exact ⟨by omega, by simpa using h2⟩
    · rintro ⟨h1, h2⟩
      unfold mkUnifiedDoc
      rw [if_neg (by omega), if_neg (by simp [h2])]
      exact ⟨_, rfl⟩
  · intro d hd
    unfold mkUnifiedDoc at hd
    split_ifs at hd with h1 h2 h3
    · injection hd with hd
      exact (congrArg UnifiedDoc.title hd).symm
    · injection hd with hd
      exact (congrArg UnifiedDoc.title hd).symm

/-- C8 witness: the validation theorem at a concrete well-formed
construction. -/
theorem unifiedDoc_validation_witness :
    (∃ d, mkUnifiedDoc { title := "ab", url := "http://example.com/", source := .yandex } = .ok d) ↔
      2 ≤ ("ab" : String).length ∧
        isValidHttpUrl "http://example.com/" = true :=
  (unifiedDoc_validation
    { title := "ab", url := "http://example.com/", source := .yandex }).1

/-- Helper: the fields of a successfully validated document in terms of
the raw construction arguments. -/
theorem mkUnifiedDoc_ok_proj {r : RawDoc} {d : UnifiedDoc}
    (hok : mkUnifiedDoc r = .ok d) :
    d.title = r.title ∧ d.url = r.url ∧ d.snippet = r.snippet ∧
    d.score_raw = r.score_raw ∧
    d.hash = if r.hash ≠ "" then r.hash else computeHash r.title r.url := by
  unfold mkUnifiedDoc at hok
  split_ifs at hok with h1 h2 h3
  · injection hok with hok
    subst hok
    simp [h3]
  · injection hok with hok
    subst hok
    simp [h3]

set_option maxRecDepth 400000 in
/-- C5 counterexample: the `compute_hash` validator keeps a truthy
pre-supplied `hash` unchanged, so a document constructed with
`hash="deadbeef"` stores `"deadbeef"`, which differs from the hash
recomputed from its `(title, url)` pair. -/
theorem presupplied_hash_kept :
    (mkUnifiedDoc { title := "Doc", url := "http://a.com/",
                    source := .yandex, hash := "deadbeef" }).map
        (fun d => d.hash) = .ok "deadbeef" ∧
    "deadbeef" ≠ computeHash "Doc" "http://a.com/" := by
  refine ⟨rfl, by decide⟩

/-- C5 amended: for every `UnifiedDoc` constructed *without* a
pre-supplied hash (the `hash` argument is empty, as at every
construction site of this repository), the stored hash equals the MD5
hex digest of the lowercased `title + "|" + url`, recomputing it from
the stored `(title, url)` pair yields the stored value, and the
computation is deterministic: any construction from the same
`(title, url)` with empty `hash` stores the same hash. -/
theorem hash_idempotent (r : RawDoc) (d : UnifiedDoc) (h : r.hash = "")
    (hok : mkUnifiedDoc r = .ok d) :
    d.hash = computeHash d.title d.url ∧
    ∀ r' d', r'.hash = "" → r'.title = r.title → r'.url = r.url →
      mkUnifiedDoc r' = .ok d' → d'.hash = d.hash := by
  obtain ⟨ht, hu, _, _, hh⟩ := mkUnifiedDoc_ok_proj hok
  rw [h] at hh
  simp only [ne_eq, not_true_eq_false, if_false] at hh
  constructor
  · rw [ht, hu]
    exact hh
  · intro r' d' h' ht' hu' hok'
    obtain ⟨_, _, _, _, hh'⟩ := mkUnifiedDoc_ok_proj hok'
    rw [h'] at hh'
    simp only [ne_eq, not_true_eq_false, if_false] at hh'
    rw [hh', hh, ht', hu']

set_option maxRecDepth 400000 in
/-- C5 witness: the idempotence theorem at a concrete construction. -/
theorem hash_idempotent_witness :
    sampleRaw.hash = "" ∧ mkUnifiedDoc sampleRaw = .ok sampleDoc ∧
    sampleDoc.hash = computeHash sampleDoc.title sampleDoc.url :=
  ⟨rfl, rfl, (hash_idempotent sampleRaw sampleDoc rfl rfl).1⟩

/-- Helper: every item collected from the fetch batch is a
`{title, url, content}` dictionary built by `mkProcessedItem`. -/
theorem collectPages_shape :
    ∀ {lps : List (String × Except String PageData)} {item : PyDict},
      item ∈ collectPages lps → ∃ link p, item = mkProcessedItem link p := by
  intro lps
  induction lps with
  | nil => intro item h; simp [collectPages] at h
  | cons x rest ih =>
      intro item h
      obtain ⟨l, e⟩ := x
      cases e with
      | error s => exact ih (by simpa [collectPages] using h)
      | ok p =>
          rcases List.mem_cons.mp (by simpa [collectPages] using h)
            with rfl | h'
          · exact ⟨l, p, rfl⟩
          · exact ih h'

/-- Helper: every document built by the run loop comes from one of the
raw items. -/
theorem buildDocs_mem {f : PyDict → Except String UnifiedDoc} :
    ∀ {raw : List PyDict} {docs : List UnifiedDoc},
      buildDocs f raw = .ok docs → ∀ d ∈ docs, ∃ r ∈ raw, f r = .ok d := by
  intro raw
  induction raw with
  | nil =>
      intro docs h d hd
      simp only [buildDocs] at h
      injection h with h
      subst h
      simp at hd
  | cons r rest ih =>
      intro docs h d hd
      simp only [buildDocs] at h
      cases hfr : f r with
      | error e => rw [hfr] at h; exact Except.noConfusion h
      | ok d0 =>
          rw [hfr] at h
          cases hrest : buildDocs f rest with
          | error e => rw [hrest] at h; exact Except.noConfusion h
          | ok ds =>
              rw [hrest] at h
              injection h with h
              subst h
              rcases List.mem_cons.mp hd with rfl | hd'
              · exact ⟨r, List.mem_cons_self _ _, hfr⟩
              · obtain ⟨r', hr', hfr'⟩ := ih hrest d hd'
                exact ⟨r', List.mem_cons_of_mem r hr', hfr'⟩

/-- Helper: `run`'s document construction on one collected item: only
the keys `title`, `url`, `content` exist, so the snippet lookup yields
`None` and the score lookup yields the `0.0` default. -/
theorem runDoc_on_processed (elr : PyDict → List LawRef) (link : String)
    (p : PageData) :
    runDoc elr (mkProcessedItem link p) =
      mkUnifiedDoc
        { title := p.title, snippet := none, content := some p.content,
          url := link, source := .yandex, doc_type := inferDocType link,
          score_raw := 0, score_rank := 0,
          law_refs := elr (mkProcessedItem link p), hash := "" } := rfl

/-- C10: every document produced by `YandexSearch.run` on the adapter's
own scraped items has `snippet = None` and `score_raw = 0.0`, because
collected items carry only the keys `title`, `url` and `content`. -/
theorem yandexRun_no_snippet_no_score (elr : PyDict → List LawRef)
    (links : List String) (pages : List (Except String PageData))
    (res : SearchResults)
    (h : yandexRun elr (searchProcessedItems links pages) = .ok res) :
    ∀ d ∈ res.docs, d.snippet = none ∧ d.score_raw = 0 := by
  intro d hd
  unfold yandexRun at h
  cases hb : buildDocs (runDoc elr) (searchProcessedItems links pages) with
  | error e => rw [hb] at h; exact Except.noConfusion h
  | ok ds =>
      rw [hb] at h
      injection h with h
      subst h
      obtain ⟨r, hr, hfr⟩ := buildDocs_mem hb d (by simpa using hd)
      obtain ⟨link, p, rfl⟩ := collectPages_shape hr
      rw [runDoc_on_processed] at hfr
      obtain ⟨_, _, hsn, hsc, _⟩ := mkUnifiedDoc_ok_proj hfr
      exact ⟨hsn, hsc⟩

set_option maxRecDepth 400000 in
/-- C10 witness: the adapter theorem at a concrete one-link batch. -/
theorem yandexRun_no_snippet_no_score_witness :
    yandexRun (fun _ => [])
        (searchProcessedItems ["http://a.com/"]
          [.ok ⟨"Title", "Body"⟩]) = .ok sampleRes ∧
    (sampleYadoc.snippet = none ∧ sampleYadoc.score_raw = 0) :=
  ⟨rfl,
   yandexRun_no_snippet_no_score (fun _ => []) ["http://a.com/"]
     [.ok ⟨"Title", "Body"⟩] sampleRes rfl sampleYadoc
     (by simp [sampleRes])⟩

/-- Helper: lowercasing distributes over string concatenation. -/
theorem pyLower_append (s t : String) :
    pyLower (s ++ t) = pyLower s ++ pyLower t := by
  show String.mk ((s ++ t).toList.map pyLowerChar) =
    String.mk (s.toList.map pyLowerChar) ++ String.mk (t.toList.map pyLowerChar)
  have h : (s ++ t).toList = s.toList ++ t.toList := by
    cases s; cases t; rfl
  rw [h, List.map_append]
  rfl

/-- Helper: hits with equal lowercased titles and equal url strings get
equal content hashes (the hash is a function of the lowercased
`title + "|" + url`). -/
theorem computeHash_congr (t₁ u₁ t₂ u₂ : String)
    (ht : pyLower t₁ = pyLower t₂) (hu : u₁ = u₂) :
    computeHash t₁ u₁ = computeHash t₂ u₂ := by
  subst hu
  unfold computeHash
  rw [pyLower_append, pyLower_append, pyLower_append, pyLower_append, ht]

/-- Helper: scoring rewrites only `score_rank`, never the hash. -/
theorem scoreDoc_hash (d : UnifiedDoc) : (scoreDoc d).hash = d.hash := rfl

/-- C1: the documents returned by the fusion contain at most one
document per content hash; hits with identical lowercased `title` and
identical `url` string have equal hashes; and the representative kept
for each hash is the first occurrence in merge order (`find?` on the
merged sequence), with only its `score_rank` rewritten by scoring. -/
theorem dedup_by_content_hash (source : String) (limit : Int)
    (bk : BackendOutcome) :
    (∀ t₁ u₁ t₂ u₂ : String, pyLower t₁ = pyLower t₂ → u₁ = u₂ →
        computeHash t₁ u₁ = computeHash t₂ u₂) ∧
    (rankedDocs source limit bk).Pairwise (fun a b => a.hash ≠ b.hash) ∧
    ∀ d ∈ rankedDocs source limit bk,
      ∃ d₀, (mergedDocs source bk).find? (fun e => e.hash = d.hash) =
          some d₀ ∧ d = scoreDoc d₀ := by
  refine ⟨computeHash_congr, ?_, ?_⟩
  · have hded := pairwise_dedupGo (mergedDocs source bk) []
    have hmap : ((dedupDocs (mergedDocs source bk)).map scoreDoc).Pairwise
        (fun a b => a.hash ≠ b.hash) := by
      rw [List.pairwise_map]
      exact hded
    have hsort := ((perm_sortDesc _).pairwise_iff
      (fun h => Ne.symm h)).mpr hmap
    exact hsort.sublist (List.take_sublist _ _)
  · intro d hd
    have h1 : d ∈ sortDesc ((dedupDocs (mergedDocs source bk)).map scoreDoc) :=
      List.mem_of_mem_take hd
    have h2 := (perm_sortDesc _).mem_iff.mp h1
    obtain ⟨d₀, hd₀, rfl⟩ := List.mem_map.mp h2
    refine ⟨d₀, ?_, rfl⟩
    rw [show (scoreDoc d₀).hash = d₀.hash from rfl]
    rw [← find?_dedupGo d₀.hash (mergedDocs source bk) [] (by simp)]
    exact find?_eq_of_pairwise_mem (pairwise_dedupGo _ []) hd₀

/-- C1 witness: hash congruence at a concrete case-differing pair and
the dedup invariant at a concrete backend outcome. -/
theorem dedup_by_content_hash_witness :
    computeHash "Кассовые Операции" "http://x.com/" =
      computeHash "кассовые операции" "http://x.com/" ∧
    (rankedDocs "both" 5 sampleBk).Pairwise (fun a b => a.hash ≠ b.hash) :=
  ⟨(dedup_by_content_hash "both" 5 sampleBk).1 "Кассовые Операции"
      "http://x.com/" "кассовые операции" "http://x.com/" (by decide) rfl,
   (dedup_by_content_hash "both" 5 sampleBk).2.1⟩

/-- C7: for fixed backend responses the returned `documents` are the
deduplicated, scored documents sorted by `score_rank` descending
(truncated to the clamped limit), the sort is a permutation of the
scored documents that is stable (for each rank value, ties keep merge
order), the merge order puts internal results before external ones, and
the whole fusion is deterministic: evaluating it twice on the same
responses yields the identical result. -/
theorem fusion_ranking (query : String) (limit : Int) (bk : BackendOutcome)
    (h : pyStrip query ≠ "") :
    resGet (searchDocuments query "both" limit bk) "documents" =
      some (.fdocs ((rankedDocs "both" limit bk).map formatDoc)) ∧
    rankedDocs "both" limit bk =
      (sortDesc ((dedupDocs (mergedDocs "both" bk)).map scoreDoc)).take
        (clampLimit limit).toNat ∧
    mergedDocs "both" bk =
      (safeRun bk.internalRes).docs ++ (safeRun bk.yandexRes).docs ∧
    (rankedDocs "both" limit bk).Sorted rankGE ∧
    List.Perm (sortDesc ((dedupDocs (mergedDocs "both" bk)).map scoreDoc))
      ((dedupDocs (mergedDocs "both" bk)).map scoreDoc) ∧
    (∀ q : ℚ,
      (sortDesc ((dedupDocs (mergedDocs "both" bk)).map scoreDoc)).filter
          (fun e => e.score_rank = q) =
        ((dedupDocs (mergedDocs "both" bk)).map scoreDoc).filter
          (fun e => e.score_rank = q)) ∧
    searchDocuments query "both" limit bk =
      searchDocuments query "both" limit bk := by
  refine ⟨?_, rfl, rfl, ?_, perm_sortDesc _, fun q => filter_sortDesc q _, rfl⟩
  · rw [resGet_documents, if_neg h]
    rfl
  · exact (sorted_sortDesc _).sublist (List.take_sublist _ _)

/-- C7 witness: the ranking theorem at a concrete non-empty query and
backend outcome. -/
theorem fusion_ranking_witness :
    pyStrip "кассовые операции" ≠ "" ∧
    (rankedDocs "both" 5 sampleBk).Sorted rankGE :=
  ⟨by decide,
   (fusion_ranking "кассовые операции" 5 sampleBk (by decide)).2.2.2.1⟩

end Pipeline
